import Mathlib

/-!
# Verification of serde_valid's validation pipeline and error model

A shallow embedding of the `serde_valid` repository's validated-decode
pipeline (`axum_serde_valid/src/json.rs`, `request.rs`, `rejection.rs`),
its derive-generated field validators
(`derive/src/validate/meta/meta_path.rs`, `derive/src/validator/...`),
and its error model with localization
(`serde_valid/src/features/fluent/into_localization.rs`),
together with theorems settling the specification's claims about them.
-/

namespace SerdeValid

/-! ## Validated-decode pipeline (axum_serde_valid/src/json.rs)

`Json::<T>::from_request` decodes the body into a generic `serde_json::Value`,
looks up (or compiles and caches) the JSON schema for `T` in a thread-local
`SchemaContext`, applies the schema, then deserializes and finally runs
`Validate::validate`.  We embed the control flow with the external
collaborators (decode result, schema compilation, deserialization,
validation) passed in as explicit data/functions. -/

/-- The rejection enum of `axum_serde_valid` (`json.rs` `JsonSchemaRejection`,
`rejection.rs` `Rejection`): `Json` (axum body-decode rejection), `Serde`
(serde_json deserialization error), `Schema` (schema validation output units),
`SerdeValid` (serde_valid validation errors).  Payload types are abstract. -/
inductive Rejection (J E S V : Type) : Type where
  | Json (e : J)
  | Serde (e : S)
  | Schema (e : E)
  | SerdeValid (e : V)
deriving DecidableEq

/-- The thread-local schema cache (`json.rs` `SchemaContext`): a map from a
type's identity (`TypeId`, embedded as `Nat`) to its compiled schema.  A
compiled schema is embedded as its validation behaviour
`Value → Except E Unit` (`schema.apply(&value).basic()`:
`ok` = `BasicOutput::Valid`, `error` = `BasicOutput::Invalid`). -/
structure SchemaContext (Value E : Type) : Type where
  schemas : List (Nat × (Value → Except E Unit))

/-- The validation behaviour of `JSONSchema::compile(&Value::Object(Map::default()))`:
the empty JSON schema `{}` places no constraint, so it accepts every value
(semantics of the external `jsonschema` crate, consumed per its contract). -/
def emptySchemaCheck {Value E : Type} : Value → Except E Unit :=
  fun _ => Except.ok ()

/-- The cache step `ctx.schemas.entry(TypeId::of::<T>()).or_insert_with(...)`
from `json.rs`: if a schema for `ty` is cached, reuse it unchanged; otherwise
compile (with the result of `JSONSchema::compile` on the generated schema
given as `compileResult`; `none` models `Err`, in which case the compiled
empty schema `{}` is stored instead), store, and return it.  The third
component reports whether a compilation happened on this call. -/
def SchemaContext.getOrInsertWith {Value E : Type} (ctx : SchemaContext Value E)
    (ty : Nat) (compileResult : Option (Value → Except E Unit)) :
    (Value → Except E Unit) × SchemaContext Value E × Bool :=
  match ctx.schemas.lookup ty with
  | some s => (s, ctx, false)
  | none =>
    let s :=
      match compileResult with
      | some s => s
      | none => emptySchemaCheck
    (s, ⟨ctx.schemas ++ [(ty, s)]⟩, true)

/-- The extractor `Json::<T>::from_request` from `json.rs` (the same control flow as
`request.rs::from_request`): decode failure → `Rejection.Json`; then schema
lookup/compile in the cache and schema application, a schema violation →
`Rejection.Schema`; then `serde_json::from_value`, failure →
`Rejection.Serde`; then `validate()`, failure → `Rejection.SerdeValid`;
otherwise the deserialized value.  Returns the result together with the
updated schema cache. -/
def from_request {Value T J E S V : Type} (ctx : SchemaContext Value E) (ty : Nat)
    (compileResult : Option (Value → Except E Unit))
    (decoded : Except J Value)
    (deser : Value → Except S T)
    (validate : T → Except V Unit) :
    Except (Rejection J E S V) T × SchemaContext Value E :=
  match decoded with
  | Except.error e => (Except.error (Rejection.Json e), ctx)
  | Except.ok value =>
    let step := ctx.getOrInsertWith ty compileResult
    match step.1 value with
    | Except.error errs => (Except.error (Rejection.Schema errs), step.2.1)
    | Except.ok _ =>
      match deser value with
      | Except.error e => (Except.error (Rejection.Serde e), step.2.1)
      | Except.ok v =>
        match validate v with
        | Except.error ve => (Except.error (Rejection.SerdeValid ve), step.2.1)
        | Except.ok _ => (Except.ok v, step.2.1)

/-- Run a sequence of schema-cache extractions (one `from_request`'s cache
interaction per requested type id), recording for each request whether it
compiled a schema on that call. -/
def SchemaContext.runExtractions {Value E : Type} (ctx : SchemaContext Value E)
    (compile : Nat → Option (Value → Except E Unit)) :
    List Nat → SchemaContext Value E × List (Nat × Bool)
  | [] => (ctx, [])
  | ty :: rest =>
    let step := ctx.getOrInsertWith ty (compile ty)
    let next := step.2.1.runExtractions compile rest
    (next.1, (ty, step.2.2) :: next.2)

/-- How many of the recorded extraction steps compiled a schema for type `ty`. -/
def compileCount (flags : List (Nat × Bool)) (ty : Nat) : Nat :=
  (flags.filter (fun p => p.1 == ty && p.2)).length

/-! ## Derive-generated field validators (derive/src/...)

The derive crate generates, per field, code that pushes failures into the
type's error map.  We embed the *behaviour* of the generated code fragments:
which key each failure is stored under, and how a nested sub-result is
embedded. -/

mutual
/-- The `serde_valid::validation::Errors` enum as matched by the generated
code in `derive/src/validate/meta/meta_path.rs`: either per-field errors
(`Errors::Fields`, the map from field key to that field's error list) or the
errors of a newtype wrapper (`Errors::NewType`). -/
inductive FErrors : Type where
  | Fields (fields : List (String × List FError))
  | NewType (errors : List FError)

/-- A single `serde_valid::validation::Error` as relevant to the generated
code: either a nested whole-value sub-result (`Error::Nested`) or any other
variant, abstracted to its rendered message. -/
inductive FError : Type where
  | Nested (errors : FErrors)
  | Message (msg : String)
end

/-- The map update `errors.entry(key).or_default().push(msg)`: append `msg` to the list
stored under `key`, creating the entry if absent. -/
def pushFieldError (errors : List (String × List FError)) (key : String)
    (msg : FError) : List (String × List FError) :=
  match errors with
  | [] => [(key, [msg])]
  | (k, msgs) :: rest =>
    if k = key then (k, msgs ++ [msg]) :: rest
    else (k, msgs) :: pushFieldError rest key msg

/-- The error-map key chosen by `inner_extract_validator_from_meta_path`
(`derive/src/validate/meta/meta_path.rs`):
`rename_map.get(field_name).unwrap_or(field_name)` — the externally renamed
name when a rename is declared, the field name otherwise. -/
def metaPathErrorKey (renameMap : List (String × String)) (fieldName : String) :
    String :=
  match renameMap.lookup fieldName with
  | some r => r
  | none => fieldName

/-- The error-map key chosen by `extract_generic_custom_validator`
(`derive/src/validator/generic/custom.rs`):
`let field_string = field_ident.to_string(); ... FieldName::new(#field_string)`
— always the internal field identifier (the function receives no rename
map). -/
def customErrorKey (fieldIdent : String) : String :=
  fieldIdent

/-- Behaviour of the code generated by `extract_generic_custom_validator`:
`if let Err(error) = custom_fn(field, args) { errors.entry(FieldName::new(field_string)).or_default().push(error) }`.
The custom function's outcome on the field value is `customResult`
(`some e` = `Err(e)`). -/
def customValidatorRun (fieldIdent : String) (customResult : Option FError)
    (errors : List (String × List FError)) : List (String × List FError) :=
  match customResult with
  | some e => pushFieldError errors (customErrorKey fieldIdent) e
  | none => errors

/-- Behaviour of the code generated by
`inner_extract_validator_from_meta_path` when the field's own
`validate()` call fails with `innerErrors`:
a `Fields` sub-result is inserted as the single element
`vec![Error::Nested(fields_errors)]` under the (renamed) key, while a
`NewType` sub-result's error list is inserted directly as the field's error
list. -/
def nestedFieldInsertion (renameMap : List (String × String)) (fieldName : String)
    (innerErrors : FErrors) : String × List FError :=
  match innerErrors with
  | FErrors.Fields fs =>
    (metaPathErrorKey renameMap fieldName, [FError.Nested (FErrors.Fields fs)])
  | FErrors.NewType es =>
    (metaPathErrorKey renameMap fieldName, es)

mutual
/-- Total number of leaf (non-nested) errors in a sub-result tree. -/
def FErrors.leafTotal : FErrors → Nat
  | FErrors.Fields fields => leafTotalFields fields
  | FErrors.NewType errors => leafTotalList errors

/-- Total number of leaf errors in a field map. -/
def leafTotalFields : List (String × List FError) → Nat
  | [] => 0
  | (_, es) :: rest => leafTotalList es + leafTotalFields rest

/-- Total number of leaf errors in an error list. -/
def leafTotalList : List FError → Nat
  | [] => 0
  | e :: rest => e.leafTotal + leafTotalList rest

/-- Total number of leaf errors under a single error. -/
def FError.leafTotal : FError → Nat
  | FError.Nested errors => errors.leafTotal
  | FError.Message _ => 1
end

/-! ## Error model and localization (serde_valid/src/features/fluent/into_localization.rs)

`serde_valid::validation::Errors<E>` is `Array(ArrayErrors) | Object(ObjectErrors) | NewType(VecErrors)`,
with `ArrayErrors = { errors: VecErrors<E>, items: ItemErrorsMap<E> }` and
`ObjectErrors = { errors: VecErrors<E>, properties: PropertyErrorsMap<E> }`.
The index maps are embedded as ordered association lists. -/

/-- A single `serde_valid::validation::Error` as matched by
`IntoLocalization for crate::validation::Error`: the `Fluent` variant
(message id plus arguments), or any other variant abstracted to its
`Display` rendering (the source's `_ => format!("{self}")` arm). -/
inductive VError : Type where
  | Fluent (id : String) (args : List (String × String))
  | Other (display : String)
deriving DecidableEq

/-- A fluent message as returned by `bundle.get_message`: its optional value
pattern (patterns are opaque here). -/
structure FluentMessage : Type where
  value : Option String

/-- The fluent bundle interface consumed by `into_localization`:
`get_message` and `format_pattern` (returning the formatted string together
with the accumulated formatting errors). -/
structure FluentBundle : Type where
  getMessage : String → Option FluentMessage
  formatPattern : String → List (String × String) → String × List String

/-- The impl `IntoLocalization for crate::validation::Error` (lines 77-105): a
`Fluent` error is looked up in the bundle; if the message is found, has a
value, and pattern formatting reports no errors, the formatted value is
returned; otherwise the message id itself.  Every other variant renders via
`Display`. -/
def intoLocalizationLeaf (b : FluentBundle) : VError → String
  | VError.Fluent id args =>
    match b.getMessage id with
    | some message =>
      match message.value with
      | some pattern =>
        if (b.formatPattern pattern args).2.isEmpty
        then (b.formatPattern pattern args).1
        else id
      | none => id
    | none => id
  | VError.Other display => display

/-- The enum `serde_valid::validation::Errors<α>` with `ArrayErrors`/`ObjectErrors`
inlined into the constructors and index maps as ordered association lists. -/
inductive VErrors (α : Type) : Type where
  | Array (errors : List α) (items : List (Nat × VErrors α))
  | Object (errors : List α) (properties : List (String × VErrors α))
  | NewType (errors : List α)

mutual
/-- The impl `IntoLocalization for Errors<validation::Error>`: localize each variant
componentwise (`ArrayErrors`/`ObjectErrors` localize their `errors` vector
and their item/property map; `NewType` localizes its vector). -/
def intoLocalization (b : FluentBundle) : VErrors VError → VErrors String
  | VErrors.Array errors items =>
    VErrors.Array (errors.map (intoLocalizationLeaf b)) (intoLocalizationItems b items)
  | VErrors.Object errors properties =>
    VErrors.Object (errors.map (intoLocalizationLeaf b)) (intoLocalizationProps b properties)
  | VErrors.NewType errors =>
    VErrors.NewType (errors.map (intoLocalizationLeaf b))

/-- The impl `IntoLocalization for ItemErrorsMap<validation::Error>`: localize each
entry's tree, keeping its index. -/
def intoLocalizationItems (b : FluentBundle) :
    List (Nat × VErrors VError) → List (Nat × VErrors String)
  | [] => []
  | (i, e) :: rest => (i, intoLocalization b e) :: intoLocalizationItems b rest

/-- The impl `IntoLocalization for PropertyErrorsMap<validation::Error>`: localize
each entry's tree, keeping its property key. -/
def intoLocalizationProps (b : FluentBundle) :
    List (String × VErrors VError) → List (String × VErrors String)
  | [] => []
  | (k, e) :: rest => (k, intoLocalization b e) :: intoLocalizationProps b rest
end

/-- The shape of an error tree: the variant at each node, the per-node count
of direct errors, and the item/property keys in order. -/
inductive VShape : Type where
  | Array (errorCount : Nat) (items : List (Nat × VShape))
  | Object (errorCount : Nat) (properties : List (String × VShape))
  | NewType (errorCount : Nat)

mutual
/-- Shape of an error tree. -/
def VErrors.shape {α : Type} : VErrors α → VShape
  | VErrors.Array errors items => VShape.Array errors.length (shapeItems items)
  | VErrors.Object errors properties => VShape.Object errors.length (shapeProps properties)
  | VErrors.NewType errors => VShape.NewType errors.length

/-- Shapes of an item map's entries. -/
def shapeItems {α : Type} : List (Nat × VErrors α) → List (Nat × VShape)
  | [] => []
  | (i, e) :: rest => (i, e.shape) :: shapeItems rest

/-- Shapes of a property map's entries. -/
def shapeProps {α : Type} : List (String × VErrors α) → List (String × VShape)
  | [] => []
  | (k, e) :: rest => (k, e.shape) :: shapeProps rest
end

mutual
/-- The leaves of an error tree in traversal order: a node's direct errors
first, then its children's leaves in map order. -/
def VErrors.leaves {α : Type} : VErrors α → List α
  | VErrors.Array errors items => errors ++ leavesItems items
  | VErrors.Object errors properties => errors ++ leavesProps properties
  | VErrors.NewType errors => errors

/-- Leaves of an item map's entries, in order. -/
def leavesItems {α : Type} : List (Nat × VErrors α) → List α
  | [] => []
  | (_, e) :: rest => e.leaves ++ leavesItems rest

/-- Leaves of a property map's entries, in order. -/
def leavesProps {α : Type} : List (String × VErrors α) → List α
  | [] => []
  | (_, e) :: rest => e.leaves ++ leavesProps rest
end

mutual
/-- Modelled from the spec: `Flatten` (§4.4) — the `serde_valid::flatten::IntoFlat`
implementation is not under `src/`; per the spec it converts an error tree
into the ordered list of `(path, message)` pairs, `path` being a
slash-delimited pointer built by descending through `properties`/`items`
keys in traversal order, one pair per `Direct` leaf in insertion order. -/
def flattenErrors (path : String) : VErrors String → List (String × String)
  | VErrors.Array errors items =>
    errors.map (fun m => (path, m)) ++ flattenItems path items
  | VErrors.Object errors properties =>
    errors.map (fun m => (path, m)) ++ flattenProps path properties
  | VErrors.NewType errors => errors.map (fun m => (path, m))

/-- Modelled from the spec: flatten an item map, extending the path with
`/<index>` per entry. -/
def flattenItems (path : String) : List (Nat × VErrors String) → List (String × String)
  | [] => []
  | (i, e) :: rest =>
    flattenErrors (path ++ "/" ++ toString i) e ++ flattenItems path rest

/-- Modelled from the spec: flatten a property map, extending the path with
`/<key>` per entry. -/
def flattenProps (path : String) : List (String × VErrors String) → List (String × String)
  | [] => []
  | (k, e) :: rest =>
    flattenErrors (path ++ "/" ++ k) e ++ flattenProps path rest
end

/-! ## Wire-facing error responses (axum_serde_valid/src/rejection.rs)

`From<Rejection> for ErrorResponse` and `IntoResponse for Rejection`
(the same logic as `json.rs`'s `JsonSchemaErrorResponse`/`IntoResponse`). -/

/-- One `OutputUnit<ErrorDescription>` of the schema layer's basic output:
its instance location (rendered JSON pointer) and error description. -/
structure SchemaOutputUnit : Type where
  instanceLocation : String
  errorDescription : String
deriving DecidableEq

/-- The `Rejection` enum with its payloads concretized for the response
conversion: `Json` and `Serde` carry their source error's `Display`
rendering (`v.to_string()`), `Schema` carries the output units, and
`SerdeValid` carries the validation error tree (leaves as rendered
messages). -/
inductive RejectionW : Type where
  | Json (display : String)
  | Serde (display : String)
  | Schema (errors : List SchemaOutputUnit)
  | SerdeValid (errors : VErrors String)

/-- One entry of the error body (`rejection.rs` `Error`): a rendered JSON
pointer path (a `JSONPointer::default()` renders as the empty string) and a
message. -/
structure JsonError : Type where
  path : String
  message : String
deriving DecidableEq

/-- The error body (`rejection.rs` `ErrorResponse`): a JSON object with the
single field `errors`, a list of path/message entries. -/
structure ErrorResponse : Type where
  errors : List JsonError
deriving DecidableEq

/-- The impl `From<Rejection> for ErrorResponse`: a `Json` rejection forwards
`v.to_string()` at the root path; a `Serde` rejection maps to the fixed
message `invalid request` at the root path; a `Schema` rejection maps each
output unit to its instance location and description; a `SerdeValid`
rejection maps each flattened leaf to its path and message. -/
def rejectionToErrorResponse : RejectionW → ErrorResponse
  | RejectionW.Json display => ⟨[⟨"", display⟩]⟩
  | RejectionW.Serde _ => ⟨[⟨"", "invalid request"⟩]⟩
  | RejectionW.Schema errors =>
    ⟨errors.map (fun u => ⟨u.instanceLocation, u.errorDescription⟩)⟩
  | RejectionW.SerdeValid errors =>
    ⟨(flattenErrors "" errors).map (fun p => ⟨p.1, p.2⟩)⟩

/-- The impl `IntoResponse for Rejection`: the response status is set to
`StatusCode::BAD_REQUEST` (400) for every rejection. -/
def rejectionStatusCode : RejectionW → Nat :=
  fun _ => 400

/-- The number of flattened leaf failures a rejection carries: a decode or
deserialization failure is one failure; a schema failure has one per output
unit; a validation failure has one per leaf of the error tree. -/
def rejectionLeafCount : RejectionW → Nat
  | RejectionW.Json _ => 1
  | RejectionW.Serde _ => 1
  | RejectionW.Schema errors => errors.length
  | RejectionW.SerdeValid errors => errors.leaves.length

/-! ## Pattern validator (derive/src/validator/string/pattern.rs)

The generated code declares a per-field `static ... : OnceCell<Regex>` and
runs `get_or_init(|| Regex::new(pattern).unwrap())` on every validation
call, then applies `validate_string_pattern(field, __pattern)`.  A compiled
regex is embedded as its match predicate `String → Bool`. -/

/-- The per-field `once_cell::sync::OnceCell<regex::Regex>` state. -/
structure PatternCell : Type where
  cell : Option (String → Bool)

/-- The cell operation `OnceCell::get_or_init`: return the stored regex if present, otherwise
run the initializer, store and return its result.  The third component
reports whether the initializer ran on this call. -/
def PatternCell.getOrInit (c : PatternCell) (compile : Unit → (String → Bool)) :
    (String → Bool) × PatternCell × Bool :=
  match c.cell with
  | some r => (r, c, false)
  | none =>
    let r := compile ()
    (r, ⟨some r⟩, true)

/-- Modelled from the spec: `serde_valid::validate_string_pattern` is not
under `src/`; per the spec, the compiled pattern is applied to the whole
field string as a predicate (“matches the whole string predicate, not a
single anchor-free search”). -/
def validate_string_pattern (value : String) (pattern : String → Bool) : Bool :=
  pattern value

/-- All contiguous substrings of a string (by codepoints). -/
def substrings (s : String) : List String :=
  (List.range (s.toList.length + 1)).flatMap (fun i =>
    (List.range (s.toList.length - i + 1)).map (fun len =>
      String.mk ((s.toList.drop i).take len)))

/-- An anchor-free search: does any contiguous substring satisfy the
pattern?  (The behaviour the spec rules out for the pattern validator.) -/
def anchorFreeSearch (pattern : String → Bool) (s : String) : Bool :=
  (substrings s).any pattern

/-- The generated pattern-validator fragment run over a sequence of
validation calls for one declared field: each call performs `get_or_init`
on the field's cell and uses the returned regex.  Records per call the
regex used and whether this call compiled. -/
def runPatternValidations (c : PatternCell) (compile : Unit → (String → Bool)) :
    List String → PatternCell × List ((String → Bool) × Bool)
  | [] => (c, [])
  | _ :: rest =>
    let step := c.getOrInit compile
    let next := runPatternValidations step.2.1 compile rest
    (next.1, (step.1, step.2.2) :: next.2)

/-! ## The deserialize-test scenario (tests/deserialize_test.rs)

`TestStruct { #[validate(minimum = 0)] #[validate(maximum = 1000)] val: i32 }`.
The numeric-range validator implementation and its message rendering are
repo code not under `src/`; they are modelled from the spec (§4.1, §8) with
the rendered maximum message pinned by the in-repo test
`deserialize_validation_err_to_string`, which asserts
`{"val": ["the number must be `<= 1000`."]}`. -/

/-- Modelled from the spec: the rendered default message of a `minimum`
violation (analogous to the maximum message pinned by the test). -/
def minimumErrorMessage (limit : Int) : String :=
  "the number must be `>= " ++ toString limit ++ "`."

/-- Modelled from the spec: the rendered default message of a `maximum`
violation, pinned by `tests/deserialize_test.rs` to
`the number must be `<= 1000`.` for limit 1000. -/
def maximumErrorMessage (limit : Int) : String :=
  "the number must be `<= " ++ toString limit ++ "`."

/-- Modelled from the spec: the generated `Validate` impl for `TestStruct`
with `minimum = 0` and `maximum = 1000` on field `val` — run both range
constraints in declaration order, collect every failure into `val`'s error
list, and return the object-shaped tree keyed by the field, or no error. -/
def validateTestStruct (val : Int) : Option (VErrors String) :=
  let fieldErrors :=
    (if val < 0 then [minimumErrorMessage 0] else []) ++
    (if 1000 < val then [maximumErrorMessage 1000] else [])
  if fieldErrors.isEmpty then none
  else some (VErrors.Object [] [("val", VErrors.NewType fieldErrors)])

/-! ## Helper lemmas -/

/-- Induction over `VErrors` with pointwise hypotheses for the child maps. -/
theorem VErrors.memInduction {α : Type} {P : VErrors α → Prop}
    (harr : ∀ errors items, (∀ p ∈ items, P p.2) → P (VErrors.Array errors items))
    (hobj : ∀ errors properties, (∀ p ∈ properties, P p.2) → P (VErrors.Object errors properties))
    (hnew : ∀ errors, P (VErrors.NewType errors)) :
    ∀ e, P e := by
  have key : ∀ (n : Nat) (e : VErrors α), sizeOf e ≤ n → P e := by
    intro n
    induction n with
    | zero =>
      intro e he
      cases e <;> simp at he
    | succ n ih =>
      intro e he
      cases e with
      | Array errors items =>
        apply harr
        intro p hp
        apply ih
        have h1 : sizeOf p < sizeOf items := List.sizeOf_lt_of_mem hp
        have h2 : sizeOf p.2 < sizeOf p := by
          cases p
          simp
        simp at he
        omega
      | Object errors properties =>
        apply hobj
        intro p hp
        apply ih
        have h1 : sizeOf p < sizeOf properties := List.sizeOf_lt_of_mem hp
        have h2 : sizeOf p.2 < sizeOf p := by
          cases p
          simp
        simp at he
        omega
      | NewType errors => exact hnew errors
  intro e
  exact key (sizeOf e) e (Nat.le_refl _)

/-- Localizing an item map preserves the shapes of its entries. -/
theorem shapeItems_intoLocalizationItems (b : FluentBundle)
    (items : List (Nat × VErrors VError))
    (h : ∀ p ∈ items, (intoLocalization b p.2).shape = p.2.shape) :
    shapeItems (intoLocalizationItems b items) = shapeItems items := by
  induction items with
  | nil => rfl
  | cons p rest ihr =>
    obtain ⟨i, e⟩ := p
    rw [intoLocalizationItems, shapeItems, shapeItems,
      h ⟨i, e⟩ (List.mem_cons_self _ _),
      ihr (fun q hq => h q (List.mem_cons_of_mem _ hq))]

/-- Localizing a property map preserves the shapes of its entries. -/
theorem shapeProps_intoLocalizationProps (b : FluentBundle)
    (properties : List (String × VErrors VError))
    (h : ∀ p ∈ properties, (intoLocalization b p.2).shape = p.2.shape) :
    shapeProps (intoLocalizationProps b properties) = shapeProps properties := by
  induction properties with
  | nil => rfl
  | cons p rest ihr =>
    obtain ⟨k, e⟩ := p
    rw [intoLocalizationProps, shapeProps, shapeProps,
      h ⟨k, e⟩ (List.mem_cons_self _ _),
      ihr (fun q hq => h q (List.mem_cons_of_mem _ hq))]

/-- Localization preserves the tree shape: the same variant at every node,
the same per-node error count, and the same item/property keys in order. -/
theorem intoLocalization_shape (b : FluentBundle) (e : VErrors VError) :
    (intoLocalization b e).shape = e.shape := by
  induction e using VErrors.memInduction with
  | harr errors items ih =>
    rw [intoLocalization, VErrors.shape, VErrors.shape, List.length_map,
      shapeItems_intoLocalizationItems b items ih]
  | hobj errors properties ih =>
    rw [intoLocalization, VErrors.shape, VErrors.shape, List.length_map,
      shapeProps_intoLocalizationProps b properties ih]
  | hnew errors =>
    rw [intoLocalization, VErrors.shape, VErrors.shape, List.length_map]

/-- Localizing an item map localizes its leaves pointwise. -/
theorem leavesItems_intoLocalizationItems (b : FluentBundle)
    (items : List (Nat × VErrors VError))
    (h : ∀ p ∈ items, (intoLocalization b p.2).leaves =
      p.2.leaves.map (intoLocalizationLeaf b)) :
    leavesItems (intoLocalizationItems b items) =
      (leavesItems items).map (intoLocalizationLeaf b) := by
  induction items with
  | nil => rfl
  | cons p rest ihr =>
    obtain ⟨i, e⟩ := p
    rw [intoLocalizationItems, leavesItems, leavesItems, List.map_append,
      h ⟨i, e⟩ (List.mem_cons_self _ _),
      ihr (fun q hq => h q (List.mem_cons_of_mem _ hq))]

/-- Localizing a property map localizes its leaves pointwise. -/
theorem leavesProps_intoLocalizationProps (b : FluentBundle)
    (properties : List (String × VErrors VError))
    (h : ∀ p ∈ properties, (intoLocalization b p.2).leaves =
      p.2.leaves.map (intoLocalizationLeaf b)) :
    leavesProps (intoLocalizationProps b properties) =
      (leavesProps properties).map (intoLocalizationLeaf b) := by
  induction properties with
  | nil => rfl
  | cons p rest ihr =>
    obtain ⟨k, e⟩ := p
    rw [intoLocalizationProps, leavesProps, leavesProps, List.map_append,
      h ⟨k, e⟩ (List.mem_cons_self _ _),
      ihr (fun q hq => h q (List.mem_cons_of_mem _ hq))]

/-- Localization replaces each leaf by its localized string, keeping the
leaf order. -/
theorem intoLocalization_leaves (b : FluentBundle) (e : VErrors VError) :
    (intoLocalization b e).leaves = e.leaves.map (intoLocalizationLeaf b) := by
  induction e using VErrors.memInduction with
  | harr errors items ih =>
    rw [intoLocalization, VErrors.leaves, VErrors.leaves, List.map_append,
      leavesItems_intoLocalizationItems b items ih]
  | hobj errors properties ih =>
    rw [intoLocalization, VErrors.leaves, VErrors.leaves, List.map_append,
      leavesProps_intoLocalizationProps b properties ih]
  | hnew errors =>
    rw [intoLocalization, VErrors.leaves, VErrors.leaves]

/-- Flattening an item map yields one pair per leaf. -/
theorem flattenItems_length (items : List (Nat × VErrors String))
    (h : ∀ p ∈ items, ∀ path, (flattenErrors path p.2).length = p.2.leaves.length)
    (path : String) :
    (flattenItems path items).length = (leavesItems items).length := by
  induction items with
  | nil => rfl
  | cons p rest ihr =>
    obtain ⟨i, e⟩ := p
    rw [flattenItems, leavesItems, List.length_append, List.length_append,
      h ⟨i, e⟩ (List.mem_cons_self _ _),
      ihr (fun q hq => h q (List.mem_cons_of_mem _ hq))]

/-- Flattening a property map yields one pair per leaf. -/
theorem flattenProps_length (properties : List (String × VErrors String))
    (h : ∀ p ∈ properties, ∀ path, (flattenErrors path p.2).length = p.2.leaves.length)
    (path : String) :
    (flattenProps path properties).length = (leavesProps properties).length := by
  induction properties with
  | nil => rfl
  | cons p rest ihr =>
    obtain ⟨k, e⟩ := p
    rw [flattenProps, leavesProps, List.length_append, List.length_append,
      h ⟨k, e⟩ (List.mem_cons_self _ _),
      ihr (fun q hq => h q (List.mem_cons_of_mem _ hq))]

/-- Lookup over an append: the left list takes precedence. -/
theorem lookup_append {β : Type} (l1 l2 : List (Nat × β)) (a : Nat) :
    (l1 ++ l2).lookup a =
      (match l1.lookup a with
       | some b => some b
       | none => l2.lookup a) := by
  induction l1 with
  | nil => simp [List.lookup]
  | cons p rest ih =>
    obtain ⟨k, v⟩ := p
    cases h : (a == k) <;> simp [List.lookup, h, ih]

/-- If a schema for `ty` is cached, extraction returns it without compiling
and leaves the cache unchanged. -/
theorem getOrInsertWith_cached {Value E : Type} (ctx : SchemaContext Value E)
    (ty : Nat) (compileResult : Option (Value → Except E Unit))
    (s : Value → Except E Unit) (h : ctx.schemas.lookup ty = some s) :
    ctx.getOrInsertWith ty compileResult = (s, ctx, false) := by
  rw [SchemaContext.getOrInsertWith.eq_def, h]

/-- If no schema for `ty` is cached, extraction compiles (the compiled
empty schema on a compile failure), stores the result and returns it. -/
theorem getOrInsertWith_uncached {Value E : Type} (ctx : SchemaContext Value E)
    (ty : Nat) (compileResult : Option (Value → Except E Unit))
    (h : ctx.schemas.lookup ty = none) :
    ctx.getOrInsertWith ty compileResult =
      (compileResult.getD emptySchemaCheck,
       ⟨ctx.schemas ++ [(ty, compileResult.getD emptySchemaCheck)]⟩, true) := by
  rw [SchemaContext.getOrInsertWith.eq_def, h]
  cases compileResult <;> rfl

/-- After an extraction for `ty`, the cache stores exactly the schema the
extraction returned. -/
theorem getOrInsertWith_lookup {Value E : Type} (ctx : SchemaContext Value E)
    (ty : Nat) (compileResult : Option (Value → Except E Unit)) :
    (ctx.getOrInsertWith ty compileResult).2.1.schemas.lookup ty =
      some (ctx.getOrInsertWith ty compileResult).1 := by
  cases h : ctx.schemas.lookup ty with
  | some s => rw [getOrInsertWith_cached ctx ty compileResult s h]; exact h
  | none =>
    rw [getOrInsertWith_uncached ctx ty compileResult h]
    simp [lookup_append, h, List.lookup]

/-- Once `ty` is cached, no later extraction compiles a schema for it. -/
theorem runExtractions_cached_no_compile {Value E : Type}
    (compile : Nat → Option (Value → Except E Unit)) (tys : List Nat) :
    ∀ (ctx : SchemaContext Value E) (ty : Nat) (s : Value → Except E Unit),
      ctx.schemas.lookup ty = some s →
      compileCount ((ctx.runExtractions compile tys).2) ty = 0 := by
  induction tys with
  | nil =>
    intro ctx ty s h
    rfl
  | cons t rest ih =>
    intro ctx ty s h
    rw [SchemaContext.runExtractions]
    cases hl : ctx.schemas.lookup t with
    | some st =>
      rw [getOrInsertWith_cached ctx t (compile t) st hl]
      simpa [compileCount, List.filter] using ih ctx ty s h
    | none =>
      have hne : (t == ty) = false := by
        cases hbe : (t == ty)
        · rfl
        · have ht : t = ty := by simpa using hbe
          rw [ht] at hl
          rw [hl] at h
          simp at h
      rw [getOrInsertWith_uncached ctx t (compile t) hl]
      have h2 : ((⟨ctx.schemas ++ [(t, (compile t).getD emptySchemaCheck)]⟩ :
          SchemaContext Value E)).schemas.lookup ty = some s := by
        simp only [lookup_append, h]
      simpa [compileCount, List.filter, hne] using ih _ ty s h2

/-- Over any extraction trace, each type is compiled at most once. -/
theorem runExtractions_compileCount_le_one {Value E : Type}
    (compile : Nat → Option (Value → Except E Unit)) (tys : List Nat) :
    ∀ (ctx : SchemaContext Value E) (ty : Nat),
      compileCount ((ctx.runExtractions compile tys).2) ty ≤ 1 := by
  induction tys with
  | nil =>
    intro ctx ty
    exact Nat.zero_le 1
  | cons t rest ih =>
    intro ctx ty
    rw [SchemaContext.runExtractions]
    cases hl : ctx.schemas.lookup t with
    | some st =>
      rw [getOrInsertWith_cached ctx t (compile t) st hl]
      simpa [compileCount, List.filter] using ih ctx ty
    | none =>
      rw [getOrInsertWith_uncached ctx t (compile t) hl]
      cases hbe : (t == ty) with
      | false =>
        have := ih (⟨ctx.schemas ++ [(t, (compile t).getD emptySchemaCheck)]⟩ :
          SchemaContext Value E) ty
        simpa [compileCount, List.filter, hbe] using this
      | true =>
        have ht : t = ty := by simpa using hbe
        subst ht
        have h2 : ((⟨ctx.schemas ++ [(t, (compile t).getD emptySchemaCheck)]⟩ :
            SchemaContext Value E)).schemas.lookup t =
            some ((compile t).getD emptySchemaCheck) := by
          simp [lookup_append, hl, List.lookup]
        have hzero := runExtractions_cached_no_compile compile rest
          (⟨ctx.schemas ++ [(t, (compile t).getD emptySchemaCheck)]⟩ :
            SchemaContext Value E) t ((compile t).getD emptySchemaCheck) h2
        simp only [compileCount] at hzero ⊢
        simp [List.filter, hzero]

/-- Flattening yields exactly one `(path, message)` pair per leaf. -/
theorem flattenErrors_length (e : VErrors String) :
    ∀ path, (flattenErrors path e).length = e.leaves.length := by
  induction e using VErrors.memInduction with
  | harr errors items ih =>
    intro path
    rw [flattenErrors, VErrors.leaves, List.length_append, List.length_append,
      List.length_map, flattenItems_length items ih path]
  | hobj errors properties ih =>
    intro path
    rw [flattenErrors, VErrors.leaves, List.length_append, List.length_append,
      List.length_map, flattenProps_length properties ih path]
  | hnew errors =>
    intro path
    rw [flattenErrors, VErrors.leaves, List.length_map]

/-- Once the pattern cell is filled with a regex, every later call reuses
it without compiling. -/
theorem runPatternValidations_cached (compile : Unit → (String → Bool))
    (r : String → Bool) :
    ∀ values : List String,
      runPatternValidations ⟨some r⟩ compile values =
        (⟨some r⟩, values.map (fun _ => (r, false))) := by
  intro values
  induction values with
  | nil => rfl
  | cons v rest ih => simp [runPatternValidations, PatternCell.getOrInit, ih]

/-- From an empty pattern cell, the first call compiles and stores the
regex, and every later call shares the stored one. -/
theorem runPatternValidations_from_empty (compile : Unit → (String → Bool))
    (v : String) (rest : List String) :
    runPatternValidations ⟨none⟩ compile (v :: rest) =
      (⟨some (compile ())⟩,
        (compile (), true) :: rest.map (fun _ => (compile (), false))) := by
  simp [runPatternValidations, PatternCell.getOrInit,
    runPatternValidations_cached compile (compile ()) rest]

/-- Evaluation of the test validator at the failing input 1234: only the
maximum constraint fails, with exactly one message under the field key. -/
theorem validateTestStruct_eval :
    validateTestStruct 1234 =
      some (VErrors.Object [] [("val", VErrors.NewType [maximumErrorMessage 1000])]) := by
  rw [validateTestStruct]
  norm_num

/-- The rendered maximum message for limit 1000, as asserted by the repo's
test `deserialize_validation_err_to_string`. -/
theorem maximumErrorMessage_1000 :
    maximumErrorMessage 1000 = "the number must be `<= 1000`." := by
  decide

/-! ## Claim theorems -/

/-- C1: when the configured schema pre-validation step reports a violation
on the decoded generic value, the pipeline returns the schema failure as the
terminal result; the result is the same for every deserializer and every
validator, so structural deserialization and the subsequent Validate run are
never attempted for that input. -/
theorem schema_failure_is_terminal {Value T J E S V : Type}
    (ctx : SchemaContext Value E) (ty : Nat)
    (compileResult : Option (Value → Except E Unit)) (value : Value) (e : E)
    (h : (ctx.getOrInsertWith ty compileResult).1 value = Except.error e) :
    ∀ (deser : Value → Except S T) (validate : T → Except V Unit),
      from_request (J := J) ctx ty compileResult (Except.ok value) deser validate =
        (Except.error (Rejection.Schema e),
          (ctx.getOrInsertWith ty compileResult).2.1) := by
  intro deser validate
  simp only [from_request, h]

/-- Witness for C1 at a concrete cache whose schema rejects the value. -/
theorem schema_failure_is_terminal_witness :
    from_request (T := Unit) (J := Unit) (S := Unit) (V := Unit)
      (⟨[(0, fun _ => Except.error ())]⟩ : SchemaContext Unit Unit) 0 none
      (Except.ok ()) (fun _ => Except.ok ()) (fun _ => Except.ok ()) =
      (Except.error (Rejection.Schema ()),
        ((⟨[(0, fun _ => Except.error ())]⟩ :
          SchemaContext Unit Unit).getOrInsertWith 0 none).2.1) :=
  schema_failure_is_terminal
    (⟨[(0, fun _ => Except.error ())]⟩ : SchemaContext Unit Unit) 0 none () () rfl _ _

/-- C8: within one schema-cache instance the schema for a given type is
compiled at most once — over any extraction trace from a fresh cache each
type triggers at most one compilation, and any extraction for an
already-cached type returns the stored schema without recompiling and
without modifying the cache. -/
theorem schema_compiled_at_most_once {Value E : Type}
    (compile : Nat → Option (Value → Except E Unit)) (tys : List Nat) (ty : Nat) :
    compileCount (((⟨[]⟩ : SchemaContext Value E).runExtractions compile tys)).2 ty ≤ 1 ∧
    ∀ (ctx : SchemaContext Value E) (s : Value → Except E Unit),
      ctx.schemas.lookup ty = some s →
      ctx.getOrInsertWith ty (compile ty) = (s, ctx, false) :=
  ⟨runExtractions_compileCount_le_one compile tys ⟨[]⟩ ty,
    fun ctx s h => getOrInsertWith_cached ctx ty (compile ty) s h⟩

/-- Witness for C8 on a concrete trace and a concrete pre-filled cache. -/
theorem schema_compiled_at_most_once_witness :
    compileCount (((⟨[]⟩ : SchemaContext Unit Unit).runExtractions
      (fun _ => none) [0, 0, 1])).2 0 ≤ 1 ∧
    (⟨[(0, emptySchemaCheck)]⟩ : SchemaContext Unit Unit).getOrInsertWith 0 none =
      (emptySchemaCheck, ⟨[(0, emptySchemaCheck)]⟩, false) :=
  ⟨(schema_compiled_at_most_once (fun _ => none) [0, 0, 1] 0).1,
    (schema_compiled_at_most_once (fun _ => none) [0, 0, 1] 0).2
      ⟨[(0, emptySchemaCheck)]⟩ emptySchemaCheck rfl⟩

/-- C10: if compiling the generated schema for a type fails, the extractor
caches the compiled empty schema for it; since the empty schema accepts
every value, the Schema rejection variant is unreachable for that type on
every input, and the cache keeps the empty schema for the type afterwards. -/
theorem compile_failure_schema_rejection_unreachable {Value T J E S V : Type}
    (ctx : SchemaContext Value E) (ty : Nat)
    (h : ctx.schemas.lookup ty = none ∨
      ctx.schemas.lookup ty = some emptySchemaCheck) :
    ∀ (decoded : Except J Value) (deser : Value → Except S T)
      (validate : T → Except V Unit),
      (∀ e, (from_request ctx ty none decoded deser validate).1 ≠
        Except.error (Rejection.Schema e)) ∧
      ((from_request ctx ty none decoded deser validate).2.schemas.lookup ty = none ∨
        (from_request ctx ty none decoded deser validate).2.schemas.lookup ty =
          some emptySchemaCheck) := by
  intro decoded deser validate
  cases decoded with
  | error j =>
    constructor
    · intro e
      simp [from_request]
    · simpa [from_request] using h
  | ok value =>
    have hstep : (ctx.getOrInsertWith ty none).1 = emptySchemaCheck ∧
        (ctx.getOrInsertWith ty none).2.1.schemas.lookup ty =
          some emptySchemaCheck := by
      cases h with
      | inl hn =>
        rw [getOrInsertWith_uncached ctx ty none hn]
        refine ⟨rfl, ?_⟩
        simp [lookup_append, hn, List.lookup]
      | inr hs =>
        rw [getOrInsertWith_cached ctx ty none emptySchemaCheck hs]
        exact ⟨rfl, hs⟩
    constructor
    · intro e
      cases hd : deser value with
      | error s => simp [from_request, hstep.1, emptySchemaCheck, hd]
      | ok v =>
        cases hv : validate v with
        | error ve => simp [from_request, hstep.1, emptySchemaCheck, hd, hv]
        | ok u => simp [from_request, hstep.1, emptySchemaCheck, hd, hv]
    · cases hd : deser value with
      | error s =>
        simpa [from_request, hstep.1, emptySchemaCheck, hd] using Or.inr hstep.2
      | ok v =>
        cases hv : validate v with
        | error ve =>
          simpa [from_request, hstep.1, emptySchemaCheck, hd, hv] using Or.inr hstep.2
        | ok u =>
          simpa [from_request, hstep.1, emptySchemaCheck, hd, hv] using Or.inr hstep.2

/-- Witness for C10 with an empty cache and a failing deserializer. -/
theorem compile_failure_schema_rejection_unreachable_witness :
    (from_request (T := Unit) (J := Unit) (S := Unit) (V := Unit)
      (⟨[]⟩ : SchemaContext Unit Unit) 0 none (Except.ok ())
      (fun _ => Except.error ()) (fun _ => Except.ok ())).1 ≠
      Except.error (Rejection.Schema ()) :=
  ((compile_failure_schema_rejection_unreachable (T := Unit) (J := Unit)
    (S := Unit) (V := Unit) (⟨[]⟩ : SchemaContext Unit Unit) 0
    (Or.inl rfl) (Except.ok ()) (fun _ => Except.error ())
    (fun _ => Except.ok ())).1) ()

/-- C2 counterexample: for input 1234 the rendered message carries backticks
around the bound — "the number must be `<= 1000`." — as the repository's own
test asserts, so the flattened output is not the claimed
[(/val, "the number must be <= 1000.")]. -/
theorem deserialize_test_message_counterexample :
    ¬ (validateTestStruct 1234).map (flattenErrors "") =
        some [("/val", "the number must be <= 1000.")] := by
  rw [validateTestStruct_eval, maximumErrorMessage_1000]
  simp [flattenErrors, flattenProps, flattenItems]

/-- C2 (amended): validating the input with val 1234 fails with exactly one
leaf for the val field, and the flattened output is
[(/val, "the number must be `<= 1000`.")] — the message carrying backticks
around the bound. -/
theorem deserialize_test_flattened :
    (validateTestStruct 1234).map (flattenErrors "") =
      some [("/val", "the number must be `<= 1000`.")] ∧
    (validateTestStruct 1234).map VErrors.leaves =
      some ["the number must be `<= 1000`."] := by
  rw [validateTestStruct_eval, maximumErrorMessage_1000]
  constructor
  · simp [flattenErrors, flattenProps, flattenItems]
  · simp [VErrors.leaves, leavesProps, leavesItems]

/-- C3 counterexample: with the rename mapping val ↦ renamed_val declared,
a custom-validator failure on field val is stored under the internal
identifier key "val", not under the declared external name "renamed_val". -/
theorem custom_validator_rename_counterexample :
    customValidatorRun "val" (some (FError.Message "custom failed")) [] =
      [("val", [FError.Message "custom failed"])] ∧
    metaPathErrorKey [("val", "renamed_val")] "val" = "renamed_val" ∧
    ("val" : String) ≠ "renamed_val" := by
  refine ⟨rfl, rfl, by decide⟩

/-- C3 (amended): nested-delegation failures are keyed by the declared
external (renamed) name, while custom-validator failures are keyed by the
internal field identifier regardless of any declared rename mapping. -/
theorem field_error_key_selection (renameMap : List (String × String))
    (fieldName fieldIdent r : String) (h : renameMap.lookup fieldName = some r)
    (inner : FErrors) (e : FError) :
    (nestedFieldInsertion renameMap fieldName inner).1 = r ∧
    (customValidatorRun fieldIdent (some e) []).map Prod.fst =
      [customErrorKey fieldIdent] := by
  constructor
  · cases inner <;> simp [nestedFieldInsertion, metaPathErrorKey, h]
  · rfl

/-- Witness for C3 (amended) at a concrete rename map. -/
theorem field_error_key_selection_witness :
    (nestedFieldInsertion [("val", "renamed_val")] "val"
      (FErrors.NewType [FError.Message "m"])).1 = "renamed_val" ∧
    (customValidatorRun "val" (some (FError.Message "m")) []).map Prod.fst =
      [customErrorKey "val"] :=
  field_error_key_selection [("val", "renamed_val")] "val" "val" "renamed_val" rfl
    (FErrors.NewType [FError.Message "m"]) (FError.Message "m")

/-- C4 counterexample: a newtype-shaped sub-result with two errors is not
embedded as a single nested child node — its error list is inserted
directly into the field's error list, which then has two entries. -/
theorem nested_newtype_not_single_child :
    (nestedFieldInsertion [] "val"
        (FErrors.NewType [FError.Message "e1", FError.Message "e2"])).2 =
      [FError.Message "e1", FError.Message "e2"] ∧
    (nestedFieldInsertion [] "val"
        (FErrors.NewType [FError.Message "e1", FError.Message "e2"])).2.length ≠ 1 := by
  exact ⟨rfl, by decide⟩

/-- C4 (amended): a failing nested field embeds an object-shaped
(Fields) sub-result as the single child Error.Nested under the field's
key, while a newtype-shaped sub-result's error list is inserted directly
as the field's error list; in both cases no leaf error is lost. -/
theorem nested_field_embedding (renameMap : List (String × String))
    (fieldName : String) (inner : FErrors) :
    (nestedFieldInsertion renameMap fieldName inner).1 =
      metaPathErrorKey renameMap fieldName ∧
    leafTotalList (nestedFieldInsertion renameMap fieldName inner).2 =
      inner.leafTotal ∧
    (∀ fields, (nestedFieldInsertion renameMap fieldName
      (FErrors.Fields fields)).2 = [FError.Nested (FErrors.Fields fields)]) ∧
    (∀ errors, (nestedFieldInsertion renameMap fieldName
      (FErrors.NewType errors)).2 = errors) := by
  refine ⟨?_, ?_, fun fields => rfl, fun errors => rfl⟩
  · cases inner <;> rfl
  · cases inner with
    | Fields fields =>
      simp [nestedFieldInsertion, leafTotalList, FError.leafTotal, FErrors.leafTotal]
    | NewType errors =>
      rfl

/-- C5: into_localization is a structure-preserving transform — the result
has the same shape (variant at every node, property keys, item indices,
leaf count per node), its leaves are the original leaves localized in
order, and the leaf transform falls back to the message identifier when
lookup fails, the message has no value, or formatting reports errors, and
otherwise yields the formatted value. -/
theorem into_localization_structure_preserving (b : FluentBundle)
    (e : VErrors VError) :
    (intoLocalization b e).shape = e.shape ∧
    (intoLocalization b e).leaves = e.leaves.map (intoLocalizationLeaf b) ∧
    (∀ id args, b.getMessage id = none →
      intoLocalizationLeaf b (VError.Fluent id args) = id) ∧
    (∀ id args m, b.getMessage id = some m → m.value = none →
      intoLocalizationLeaf b (VError.Fluent id args) = id) ∧
    (∀ id args m p, b.getMessage id = some m → m.value = some p →
      (b.formatPattern p args).2 ≠ [] →
      intoLocalizationLeaf b (VError.Fluent id args) = id) ∧
    (∀ id args m p, b.getMessage id = some m → m.value = some p →
      (b.formatPattern p args).2 = [] →
      intoLocalizationLeaf b (VError.Fluent id args) = (b.formatPattern p args).1) := by
  refine ⟨intoLocalization_shape b e, intoLocalization_leaves b e, ?_, ?_, ?_, ?_⟩
  · intro id args h
    simp [intoLocalizationLeaf, h]
  · intro id args m h1 h2
    simp [intoLocalizationLeaf, h1, h2]
  · intro id args m p h1 h2 h3
    simp [intoLocalizationLeaf, h1, h2, List.isEmpty_iff, h3]
  · intro id args m p h1 h2 h3
    simp [intoLocalizationLeaf, h1, h2, List.isEmpty_iff, h3]

/-- Witness for C5 on a concrete bundle (failing lookup) and tree. -/
theorem into_localization_structure_preserving_witness :
    intoLocalizationLeaf ⟨fun _ => none, fun p _ => (p, [])⟩
      (VError.Fluent "x" []) = "x" :=
  (into_localization_structure_preserving ⟨fun _ => none, fun p _ => (p, [])⟩
    (VErrors.NewType [])).2.2.1 "x" [] rfl

/-- C6: every rejection kind yields the same envelope shape — an errors
list with one path/message entry per flattened leaf failure — and the
response status is 400 Bad Request for every kind. -/
theorem rejection_uniform_envelope (r : RejectionW) :
    rejectionStatusCode r = 400 ∧
    (rejectionToErrorResponse r).errors.length = rejectionLeafCount r := by
  refine ⟨rfl, ?_⟩
  cases r with
  | Json d => rfl
  | Serde d => rfl
  | Schema errors => simp [rejectionToErrorResponse, rejectionLeafCount]
  | SerdeValid errors =>
    simp [rejectionToErrorResponse, rejectionLeafCount, flattenErrors_length]

/-- C7 counterexample: the body message of a decode (Json) rejection is the
rejection's own display string forwarded verbatim — it contains the
low-level parser diagnostic when the display does, and it varies with the
parse error, so it is not a fixed generic message. -/
theorem decode_rejection_message_counterexample :
    (rejectionToErrorResponse (RejectionW.Json
        ("Failed to parse the request body as JSON: " ++
          "expected value at line 1 column 1"))).errors.map JsonError.message =
      ["Failed to parse the request body as JSON: expected value at line 1 column 1"] ∧
    (rejectionToErrorResponse (RejectionW.Json "decode failure A")).errors.map
        JsonError.message ≠
      (rejectionToErrorResponse (RejectionW.Json "decode failure B")).errors.map
        JsonError.message := by
  refine ⟨by decide, by decide⟩

/-- C7 (amended): the generic non-diagnostic message "invalid request" is
used for deserialization (Serde) failures; a decode (Json) failure instead
forwards the decode error's display string unchanged, so parser diagnostics
appear in the body whenever the display carries them. -/
theorem decode_rejection_messages (d : String) :
    (rejectionToErrorResponse (RejectionW.Serde d)).errors.map JsonError.message =
      ["invalid request"] ∧
    (rejectionToErrorResponse (RejectionW.Json d)).errors.map JsonError.message =
      [d] := by
  exact ⟨rfl, rfl⟩

/-- C9: the pattern regex for a declared field is compiled at most once and
the stored compiled regex is shared by every validation call; the compiled
pattern is applied to the whole field string as a predicate, which differs
from an anchor-free substring search. -/
theorem pattern_compiled_once_whole_match
    (compile : Unit → (String → Bool)) (values : List String) :
    ((runPatternValidations ⟨none⟩ compile values).2.filter
      (fun p => p.2)).length ≤ 1 ∧
    (∀ p ∈ (runPatternValidations ⟨none⟩ compile values).2, p.1 = compile ()) ∧
    (∀ (pattern : String → Bool) (s : String),
      validate_string_pattern s pattern = pattern s) ∧
    validate_string_pattern "ba" (fun t => t == "a") = false ∧
    anchorFreeSearch (fun t => t == "a") "ba" = true := by
  refine ⟨?_, ?_, fun pattern s => rfl, rfl, by decide⟩
  · cases values with
    | nil => simp [runPatternValidations]
    | cons v rest =>
      rw [runPatternValidations_from_empty compile v rest]
      simp [List.filter_map]
  · cases values with
    | nil =>
      intro p hp
      simp [runPatternValidations] at hp
    | cons v rest =>
      rw [runPatternValidations_from_empty compile v rest]
      intro p hp
      rcases List.mem_cons.mp hp with h | h
      · rw [h]
      · rcases List.mem_map.mp h with ⟨w, _, hw⟩
        rw [← hw]

/-- Witness for C9 on a concrete pattern and trace. -/
theorem pattern_compiled_once_whole_match_witness :
    ((runPatternValidations ⟨none⟩ (fun _ => fun s => s == "a") ["x", "y"]).2.filter
      (fun p => p.2)).length ≤ 1 ∧
    validate_string_pattern "ba" (fun t => t == "a") = false :=
  ⟨(pattern_compiled_once_whole_match (fun _ => fun s => s == "a") ["x", "y"]).1,
    (pattern_compiled_once_whole_match (fun _ => fun s => s == "a") ["x", "y"]).2.2.2.1⟩

end SerdeValid
